import Mathlib

/-!
Verification of the TidyTree rendering engine (src/main.js): a shallow
embedding of its normalization pass (`setData`), configuration setters,
event registry, scene reconciliation joins, and circular-layout geometry,
together with theorems settling the specification's claims.

JavaScript numbers are modelled as exact rationals (every finite double is
a rational); the outcomes of unguarded divisions are modelled by `JSVal`,
which adds NaN and the signed infinities.  Trigonometric code is modelled
over the reals.  String conversion of numbers is kept abstract as an
`fmt : ℝ → String` parameter where path strings are assembled.
-/

/- ## JavaScript value model -/

/-- Result of a JavaScript arithmetic operation: a finite number, NaN, or a
signed infinity. -/
inductive JSVal where
  | num (q : ℚ)
  | nan
  | inf
  | ninf
deriving DecidableEq, Repr

/-- Whether a JS value is a finite number. -/
def JSVal.finite : JSVal → Bool
  | .num _ => true
  | _ => false

/-- JavaScript division `a / b` of finite numbers: division by zero yields
NaN (for 0/0) or a signed infinity. -/
def jsDiv (a b : ℚ) : JSVal :=
  if b = 0 then (if a = 0 then .nan else if 0 < a then .inf else .ninf)
  else .num (a / b)

/-- JavaScript multiplication of a finite number with a possibly
non-finite value (used for `d.weight = this.scalar * d.value`). -/
def jsMulQ (a : ℚ) : JSVal → JSVal
  | .num b => .num (a * b)
  | .nan => .nan
  | .inf => if a = 0 then .nan else if 0 < a then .inf else .ninf
  | .ninf => if a = 0 then .nan else if 0 < a then .ninf else .inf

/-- The truthiness test `d.data.length ? d.data.length : 0` of `setData`:
an absent (`undefined`) or zero branch length contributes 0. -/
def jsLengthOr0 : Option ℚ → ℚ
  | none => 0
  | some q => if q = 0 then 0 else q

/- ## Tree data model (patristic.Branch and d3.hierarchy) -/

mutual
/-- A parsed tree node (patristic.Branch): stable id, optional branch
length (distance to parent), and the ordered children. -/
inductive Branch where
  | mk (id : String) (length : Option ℚ) (children : BranchList)
/-- An ordered list of sibling `Branch`es. -/
inductive BranchList where
  | nil
  | cons (head : Branch) (tail : BranchList)
end

def Branch.id : Branch → String
  | .mk i _ _ => i

def Branch.length : Branch → Option ℚ
  | .mk _ l _ => l

def Branch.children : Branch → BranchList
  | .mk _ _ cs => cs

mutual
/-- Whether every node of a `Branch` tree has a non-negative (or absent)
branch length. -/
def Branch.nonnegLengths : Branch → Bool
  | .mk _ l cs => decide (0 ≤ jsLengthOr0 l) && BranchList.nonnegLengths cs
def BranchList.nonnegLengths : BranchList → Bool
  | .nil => true
  | .cons c cs => Branch.nonnegLengths c && BranchList.nonnegLengths cs
end

mutual
/-- A d3.hierarchy node as left by `setData`'s `eachBefore` pass: the
underlying datum's id and length, the cumulative `value`, and the child
hierarchy nodes. -/
inductive HNode where
  | mk (id : String) (length : Option ℚ) (value : ℚ) (children : HList)
/-- An ordered list of sibling `HNode`s. -/
inductive HList where
  | nil
  | cons (head : HNode) (tail : HList)
end

def HNode.id : HNode → String
  | .mk i _ _ _ => i

def HNode.length : HNode → Option ℚ
  | .mk _ l _ _ => l

def HNode.value : HNode → ℚ
  | .mk _ _ v _ => v

def HNode.children : HNode → HList
  | .mk _ _ _ cs => cs

def HList.toList : HList → List HNode
  | .nil => []
  | .cons c cs => c :: cs.toList

mutual
/-- The `eachBefore` pass of `setData`: each node's cumulative value is its
parent's value (`p`, 0 at the root) plus its own length when truthy. -/
def hierarchyValued (p : ℚ) : Branch → HNode
  | .mk i l cs =>
    .mk i l (p + jsLengthOr0 l) (hierarchyValuedKids (p + jsLengthOr0 l) cs)
def hierarchyValuedKids (p : ℚ) : BranchList → HList
  | .nil => .nil
  | .cons c cs => .cons (hierarchyValued p c) (hierarchyValuedKids p cs)
end

mutual
/-- The cumulative values of all nodes, in `eachBefore` (pre-)order. -/
def HNode.preValues : HNode → List ℚ
  | .mk _ _ v cs => v :: HList.preValues cs
def HList.preValues : HList → List ℚ
  | .nil => []
  | .cons c cs => HNode.preValues c ++ HList.preValues cs
end

mutual
/-- All (parent cumulative value, child node) pairs of a hierarchy. -/
def HNode.valueEdges : HNode → List (ℚ × HNode)
  | .mk _ _ v cs => HList.valueEdgesUnder v cs
def HList.valueEdgesUnder (v : ℚ) : HList → List (ℚ × HNode)
  | .nil => []
  | .cons c cs => (v, c) :: c.valueEdges ++ HList.valueEdgesUnder v cs
end

mutual
/-- Number of nodes of a hierarchy (used as breadth-first traversal fuel). -/
def HNode.size : HNode → Nat
  | .mk _ _ _ cs => 1 + HList.size cs
def HList.size : HList → Nat
  | .nil => 0
  | .cons c cs => HNode.size c + HList.size cs
end

/-- One breadth-first step: the children of a whole level, in order. -/
def nextLevel (l : List HNode) : List HNode :=
  l.flatMap (fun n => n.children.toList)

/-- Breadth-first node traversal (the order of d3's `node.each`), with an
explicit level-count fuel; any fuel at least the node count is enough, and
`HNode.descendants` supplies it. -/
def levelOrderF : Nat → List HNode → List HNode
  | 0, _ => []
  | _ + 1, [] => []
  | fuel + 1, t :: ts => (t :: ts) ++ levelOrderF fuel (nextLevel (t :: ts))

/-- d3 `descendants()`: all nodes of the hierarchy in breadth-first order. -/
def HNode.descendants (t : HNode) : List HNode :=
  levelOrderF t.size [t]

/-- Breadth-first link collection: d3 `links()` pushes, for every non-root
node in visit order, the pair of its parent (source) and itself (target). -/
def levelLinksF : Nat → List HNode → List (HNode × HNode)
  | 0, _ => []
  | _ + 1, [] => []
  | fuel + 1, t :: ts =>
    (t :: ts).flatMap (fun p => p.children.toList.map (fun c => (p, c))) ++
      levelLinksF fuel (nextLevel (t :: ts))

/-- d3 `links()` on the hierarchy root. -/
def HNode.links (t : HNode) : List (HNode × HNode) :=
  levelLinksF t.size [t]

/- ## setData: range fold and normalization -/

/-- `Number.MAX_SAFE_INTEGER`. -/
def MAX_SAFE_INTEGER : ℚ := 9007199254740991

/-- The range computation of `setData`: starting from
`[Number.MAX_SAFE_INTEGER, Number.MIN_SAFE_INTEGER]`, each visited value
lowers `range[0]` and raises `range[1]`. -/
def rangeFold (vals : List ℚ) : ℚ × ℚ :=
  vals.foldl
    (fun r v => (if v < r.1 then v else r.1, if v > r.2 then v else r.2))
    (MAX_SAFE_INTEGER, -MAX_SAFE_INTEGER)

/-- The global maximum cumulative value `this.range[1]` computed by
`setData` for a tree. -/
def rangeMax (t : Branch) : ℚ :=
  (rangeFold (hierarchyValued 0 t).preValues).2

/-- The normalized value of every node in `eachBefore` order:
`d.value /= this.range[1]`, an unguarded JS division. -/
def normValues (t : Branch) : List JSVal :=
  (hierarchyValued 0 t).preValues.map (fun v => jsDiv v (rangeMax t))

/-- The data-dependent state established by a successful `setData`. -/
structure TreeState where
  hierarchy : HNode
  range : ℚ × ℚ

/-- `TidyTree.prototype.setData`: throws `Invalid Data` on missing data;
otherwise builds the valued hierarchy and the cumulative-value range
before the per-node division. -/
def setData (data : Option Branch) : Except String TreeState :=
  match data with
  | none => .error "Invalid Data"
  | some d =>
    let h := hierarchyValued 0 d
    .ok ⟨h, rangeFold h.preValues⟩

/- ## Scene reconciliation joins -/

/-- Result of a keyed data join. -/
structure JoinResult (α : Type) where
  enter : List (String × α)
  update : List (String × α)
  exit : List String

/-- Modelled from the spec: the scene primitive's keyed data join (spec
§4.5) classifies enter (key present in the new data, absent from the
scene), update (key present in both, the existing visual of that same key
receiving that key's new datum), and exit (scene key absent from the new
data).  The nodes join uses it with key function `d => d.data.id`. -/
def keyedJoin {α : Type} (old : List String) (new : List (String × α)) :
    JoinResult α :=
  ⟨new.filter (fun kv => !(old.contains kv.1)),
   new.filter (fun kv => old.contains kv.1),
   old.filter (fun k => !((new.map Prod.fst).contains k))⟩

/-- Result of an index-keyed data join: positionally paired updates,
trailing new data entering, trailing old data exiting. -/
structure IndexJoinResult (α β : Type) where
  update : List (α × β)
  enter : List β
  exit : List α

/-- Modelled from the spec: the links join passes no key function to the
scene primitive's data join, whose documented default key is the datum's
index, so old and new link data are paired positionally. -/
def indexJoin {α β : Type} (old : List α) (new : List β) :
    IndexJoinResult α β :=
  ⟨old.zip new, new.drop old.length, old.drop new.length⟩

/- ## Configuration state and setters -/

/-- `TidyTree.validLayouts`. -/
def validLayouts : List String := ["horizontal", "vertical", "circular"]

/-- `TidyTree.validTypes`. -/
def validTypes : List String := ["tree", "weighted", "dendrogram"]

/-- `TidyTree.validModes`. -/
def validModes : List String := ["smooth", "square", "straight"]

/-- The engine state touched by the config setters: the stored
layout/type/mode fields, whether a render target exists (`this.parent`),
the hierarchy, and the rendered scene (modelled by its node-visual keys). -/
structure TidyTreeState where
  layout : String
  type : String
  mode : String
  hasParent : Bool
  hierarchy : HNode
  scene : List String

/-- `redraw()`, at the granularity the config setters need: recompute the
rendered scene from the current hierarchy. -/
def redrawScene (st : TidyTreeState) : TidyTreeState :=
  { st with scene := st.hierarchy.descendants.map HNode.id }

/-- `TidyTree.prototype.setLayout`: throw (leaving the state untouched)
unless the new layout is a member of `validLayouts`; otherwise store it
and redraw when already rendered.  The second component is the thrown
error, if any. -/
def setLayout (st : TidyTreeState) (newLayout : String) :
    TidyTreeState × Option String :=
  if !(validLayouts.contains newLayout) then
    (st, some ("Cannot set TidyTree to layout: " ++ newLayout))
  else
    let st' := { st with layout := newLayout }
    (if st'.hasParent then redrawScene st' else st', none)

/-- `TidyTree.prototype.setType`: throw unless the new type is a member of
`validTypes`; otherwise store it and redraw when already rendered. -/
def setType (st : TidyTreeState) (newType : String) :
    TidyTreeState × Option String :=
  if !(validTypes.contains newType) then
    (st, some ("Cannot set TidyTree to type: " ++ newType))
  else
    let st' := { st with type := newType }
    (if st'.hasParent then redrawScene st' else st', none)

/-- `TidyTree.prototype.setMode`: throw unless the new mode is a member of
`validModes`; otherwise store it and redraw when already rendered. -/
def setMode (st : TidyTreeState) (newMode : String) :
    TidyTreeState × Option String :=
  if !(validModes.contains newMode) then
    (st, some ("Cannot set TidyTree to mode: " ++ newMode))
  else
    let st' := { st with mode := newMode }
    (if st'.hasParent then redrawScene st' else st', none)

/- ## Event registry -/

/-- A JavaScript value returned by an event handler. -/
inductive EvVal where
  | null
  | other (tag : String)
deriving DecidableEq, Repr

/-- The space character, the separator of `events.split(' ')`. -/
def spaceChar : Char := ' '

/-- Accumulating splitter behind `jsSplitSpace`. -/
def splitSpaceAux : List Char → List Char → List String
  | [], acc => [String.mk acc.reverse]
  | c :: rest, acc =>
    if c = spaceChar then String.mk acc.reverse :: splitSpaceAux rest []
    else splitSpaceAux rest (c :: acc)

/-- JavaScript `s.split(' ')`: the space-delimited pieces of `s`. -/
def jsSplitSpace (s : String) : List String :=
  splitSpaceAux s.data []

/-- An event handler: a function of the packed argument array. -/
def Handler : Type := List EvVal → EvVal

/-- `TidyTree.prototype.off`: split the event names on spaces and store
the handler `() => null` under each of them. -/
def off (events : String → Option Handler) (names : String) :
    String → Option Handler :=
  fun e => if e ∈ jsSplitSpace names then some (fun _ => EvVal.null) else events e

/-- Outcome of a `trigger` call: a thrown error or the handler's value. -/
inductive TriggerResult where
  | thrown (msg : String)
  | value (v : EvVal)

/-- `TidyTree.prototype.trigger`: throw when nothing is stored under the
event name, otherwise call the stored handler. -/
def trigger (events : String → Option Handler) (event : String)
    (args : List EvVal) : TriggerResult :=
  match events event with
  | none => .thrown ("No event named " ++ event ++ " is defined.")
  | some f => .value (f args)

/- ## Circular-layout geometry -/

noncomputable section

/-- `circularPoint(x, y)`: the polar-to-Cartesian projection used by the
circular layout (angle 0 pointing up). -/
def circularPoint (x y : ℝ) : ℝ × ℝ :=
  (y * Real.cos (x - Real.pi / 2), y * Real.sin (x - Real.pi / 2))

/-- A positioned node: the abstract layout coordinates (`x`, `y`) assigned
by the positioning primitive and the `weight` coordinate assigned by
`redraw`. -/
structure LayoutPt where
  x : ℝ
  y : ℝ
  weight : ℝ

/-- A link datum: source (parent) and target (child) positioned nodes. -/
structure LinkD where
  source : LayoutPt
  target : LayoutPt

/-- `linkTransformers.tree.straight.circular`: a move to the projected
source followed by a line to the projected target. -/
def linkStraightCircularTree (fmt : ℝ → String) (d : LinkD) : String :=
  let startAngle := d.source.x - Real.pi / 2
  let startRadius := d.source.y
  let endAngle := d.target.x - Real.pi / 2
  let endRadius := d.target.y
  let x0 := Real.cos startAngle
  let y0 := Real.sin startAngle
  let x1 := Real.cos endAngle
  let y1 := Real.sin endAngle
  "M" ++ fmt (startRadius * x0) ++ "," ++ fmt (startRadius * y0) ++
    "L" ++ fmt (endRadius * x1) ++ "," ++ fmt (endRadius * y1)

/-- `linkTransformers.weighted.straight.circular`: as the tree variant,
with the weight coordinate as radius. -/
def linkStraightCircularWeighted (fmt : ℝ → String) (d : LinkD) : String :=
  let startAngle := d.source.x - Real.pi / 2
  let startRadius := d.source.weight
  let endAngle := d.target.x - Real.pi / 2
  let endRadius := d.target.weight
  let x0 := Real.cos startAngle
  let y0 := Real.sin startAngle
  let x1 := Real.cos endAngle
  let y1 := Real.sin endAngle
  "M" ++ fmt (startRadius * x0) ++ "," ++ fmt (startRadius * y0) ++
    "L" ++ fmt (endRadius * x1) ++ "," ++ fmt (endRadius * y1)

/-- `linkTransformers.tree.square.circular`: a move to the projected
source, an arc at the source radius to the target's angle (omitted
entirely when the angles coincide), and a radial line to the projected
target.  The sweep flag is 1 when the target's angle is the greater. -/
def linkSquareCircularTree (fmt : ℝ → String) (d : LinkD) : String :=
  let startAngle := d.source.x - Real.pi / 2
  let startRadius := d.source.y
  let endAngle := d.target.x - Real.pi / 2
  let endRadius := d.target.y
  let x0 := Real.cos startAngle
  let y0 := Real.sin startAngle
  let x1 := Real.cos endAngle
  let y1 := Real.sin endAngle
  "M" ++ fmt (startRadius * x0) ++ "," ++ fmt (startRadius * y0) ++
    (if endAngle = startAngle then "" else
      "A" ++ fmt startRadius ++ "," ++ fmt startRadius ++ " 0 0 " ++
        (if endAngle > startAngle then "1" else "0") ++ " " ++
        fmt (startRadius * x1) ++ "," ++ fmt (startRadius * y1)) ++
    "L" ++ fmt (endRadius * x1) ++ "," ++ fmt (endRadius * y1)

/-- `linkTransformers.weighted.square.circular`: as the tree variant, with
the weight coordinate as radius. -/
def linkSquareCircularWeighted (fmt : ℝ → String) (d : LinkD) : String :=
  let startAngle := d.source.x - Real.pi / 2
  let startRadius := d.source.weight
  let endAngle := d.target.x - Real.pi / 2
  let endRadius := d.target.weight
  let x0 := Real.cos startAngle
  let y0 := Real.sin startAngle
  let x1 := Real.cos endAngle
  let y1 := Real.sin endAngle
  "M" ++ fmt (startRadius * x0) ++ "," ++ fmt (startRadius * y0) ++
    (if endAngle = startAngle then "" else
      "A" ++ fmt startRadius ++ "," ++ fmt startRadius ++ " 0 0 " ++
        (if endAngle > startAngle then "1" else "0") ++ " " ++
        fmt (startRadius * x1) ++ "," ++ fmt (startRadius * y1)) ++
    "L" ++ fmt (endRadius * x1) ++ "," ++ fmt (endRadius * y1)

/-- Modelled from the spec: the smooth-mode circular link generator is the
external radial-curve primitive (d3.linkRadial with angle `d.x` and radius
`d.y`), a curved interpolation whose endpoints are the polar projections
of source and target (spec §4.2, §4.3); only its endpoints are modelled. -/
def linkSmoothCircularTreeEndpoints (d : LinkD) : (ℝ × ℝ) × (ℝ × ℝ) :=
  (circularPoint d.source.x d.source.y, circularPoint d.target.x d.target.y)

/-- `nodeTransformers.tree.circular`: translate to
`circularPoint(d.x, d.y)`. -/
def nodeTransformerTreeCircular (d : LayoutPt) : ℝ × ℝ :=
  circularPoint d.x d.y

/-- `nodeTransformers.weighted.circular`: translate to
`circularPoint(d.x, d.weight)`. -/
def nodeTransformerWeightedCircular (d : LayoutPt) : ℝ × ℝ :=
  circularPoint d.x d.weight

/-- `radToDeg = 180 / Math.PI`. -/
def radToDeg : ℝ := 180 / Real.pi

/-- JavaScript truncation toward zero (the integer part used by `%`). -/
def jsTrunc (r : ℝ) : ℤ :=
  if 0 ≤ r then ⌊r⌋ else ⌈r⌉

/-- The JavaScript remainder operator `a % b` on numbers:
`a - b * trunc(a / b)`, keeping the sign of `a`. -/
def jsMod (a b : ℝ) : ℝ := a - b * jsTrunc (a / b)

/-- An SVG transform directive: a translation and an optional rotation in
degrees. -/
structure SvgTransform where
  translate : ℝ × ℝ
  rotate : Option ℝ

/-- `labelTransformers.tree.straight.circular`: the midpoint of the two
projected endpoints, rotated to the chord's slope. -/
def labelTransformerStraightCircularTree (l : LinkD) : SvgTransform :=
  let s := circularPoint l.source.x l.source.y
  let t := circularPoint l.target.x l.target.y
  ⟨((s.1 + t.1) / 2, (s.2 + t.2) / 2),
   some (Real.arctan ((s.2 - t.2) / (s.1 - t.1)) * radToDeg)⟩

/-- `labelTransformers.weighted.straight.circular`: as the tree variant,
with the weight coordinate as radius. -/
def labelTransformerStraightCircularWeighted (l : LinkD) : SvgTransform :=
  let s := circularPoint l.source.x l.source.weight
  let t := circularPoint l.target.x l.target.weight
  ⟨((s.1 + t.1) / 2, (s.2 + t.2) / 2),
   some (Real.arctan ((s.2 - t.2) / (s.1 - t.1)) * radToDeg)⟩

/-- `labelTransformers.tree.square.circular`: projected at the target's
angle and the mean radius, rotated upright like a node label. -/
def labelTransformerSquareCircularTree (l : LinkD) : SvgTransform :=
  let u := circularPoint l.target.x ((l.source.y + l.target.y) / 2)
  ⟨u, some (jsMod (l.target.x * radToDeg) 180 - 90)⟩

/-- `labelTransformers.weighted.square.circular`: as the tree variant,
with the weight coordinate as radius. -/
def labelTransformerSquareCircularWeighted (l : LinkD) : SvgTransform :=
  let u := circularPoint l.target.x ((l.source.weight + l.target.weight) / 2)
  ⟨u, some (jsMod (l.target.x * radToDeg) 180 - 90)⟩

/-- Circular-layout node label text-anchor (`redraw`, identical in the
enter and update branches): flips to `end` on the lower half circle. -/
def circNodeLabelAnchor (x : ℝ) : String :=
  if jsMod x (2 * Real.pi) > Real.pi then "end" else "start"

/-- Circular-layout node label x offset: flips to -5 on the lower half
circle. -/
def circNodeLabelOffset (x : ℝ) : ℝ :=
  if jsMod x (2 * Real.pi) > Real.pi then -5 else 5

/-- Circular-layout node label rotation:
`l.x / Math.PI * 180 % 180 - 90`. -/
def circNodeLabelRotation (x : ℝ) : ℝ :=
  jsMod (x / Real.pi * 180) 180 - 90

end

/- ## Pixel budget and weight coordinates -/

/-- The margin array, in CSS order: `[top, right, bottom, left]`. -/
structure Margin where
  m0 : ℚ
  m1 : ℚ
  m2 : ℚ
  m3 : ℚ

/-- `this.width`: the container width minus `margin[0]` and `margin[2]`. -/
def innerWidth (parentWidth : ℚ) (m : Margin) : ℚ :=
  parentWidth - m.m0 - m.m2

/-- `this.height`: the container height minus `margin[1]` and
`margin[3]`. -/
def innerHeight (parentHeight : ℚ) (m : Margin) : ℚ :=
  parentHeight - m.m1 - m.m3

/-- `this.scalar`: the pixel budget of the depth/weight axis, by layout. -/
def scalarOf (layout : String) (width height : ℚ) : ℚ :=
  if layout = "horizontal" then width
  else if layout = "vertical" then height
  else min width height / 2

/-- The weight pass of `redraw`: `d.weight = this.scalar * d.value` over
every node, in `eachBefore` order. -/
def nodeWeights (scalar : ℚ) (t : Branch) : List JSVal :=
  (normValues t).map (jsMulQ scalar)

/- ## Link-distance labels -/

/-- The link-distance label text (`redraw`, link enter): `"0.000"` when
the target datum's length is `undefined`, else its `toLocaleString`
rendering. -/
def linkDistanceText (toLocaleString : ℚ → String) (link : HNode × HNode) :
    String :=
  match link.2.length with
  | none => "0.000"
  | some v => toLocaleString v

/- ## Concrete sample data for witnesses and counterexamples -/

/-- A two-node tree: a root with no length and one leaf of length 1. -/
def treeRootLeaf : Branch :=
  .mk "r" none (.cons (.mk "A" (some 1) .nil) .nil)

/-- A tree whose root itself carries a length and whose child has one:
cumulative values -5 and -3. -/
def treeNegRoot : Branch :=
  .mk "r" (some (-5)) (.cons (.mk "c" (some 2) .nil) .nil)

/-- A single root node carrying length 5. -/
def treeRootLen5 : Branch := .mk "r" (some 5) .nil

/-- A two-node tree in which no node carries a length. -/
def treeNoLengths : Branch :=
  .mk "r" none (.cons (.mk "c" none .nil) .nil)

/-- A uniform margin of 30 on all four sides. -/
def margin30 : Margin := ⟨30, 30, 30, 30⟩

/-- A leaf hierarchy node with a given id (value 0, no length). -/
def hLeaf (i : String) : HNode := .mk i none 0 .nil

/-- A hierarchy of a root over the leaves A and B. -/
def hTreeAB : HNode :=
  .mk "r" none 0 (.cons (hLeaf "A") (.cons (hLeaf "B") .nil))

/-- The hierarchy `hTreeAB` after inserting one more leaf N between A and
B. -/
def hTreeANB : HNode :=
  .mk "r" none 0
    (.cons (hLeaf "A") (.cons (hLeaf "N") (.cons (hLeaf "B") .nil)))

/-- A hierarchy of a root over one leaf that carries no length. -/
def hTreeRootC : HNode :=
  .mk "r" none 0 (.cons (hLeaf "c") .nil)

/-- A concrete engine state rendered with `hTreeAB`. -/
def sampleState : TidyTreeState :=
  ⟨"vertical", "tree", "smooth", true, hTreeAB, ["r", "A", "B"]⟩

/- ## Helper lemmas: hierarchy construction -/

theorem hierarchyValued_def (p : ℚ) (i : String) (l : Option ℚ)
    (cs : BranchList) :
    hierarchyValued p (.mk i l cs) =
      .mk i l (p + jsLengthOr0 l) (hierarchyValuedKids (p + jsLengthOr0 l) cs) := by
  rw [hierarchyValued]

theorem hierarchyValued_value (p : ℚ) (b : Branch) :
    (hierarchyValued p b).value = p + jsLengthOr0 b.length := by
  cases b with
  | mk i l cs => rw [hierarchyValued_def]; rfl

theorem hierarchyValued_length (p : ℚ) (b : Branch) :
    (hierarchyValued p b).length = b.length := by
  cases b with
  | mk i l cs => rw [hierarchyValued_def]; rfl

theorem preValues_head (h : HNode) : h.preValues.head? = some h.value := by
  cases h with
  | mk i l v cs => rw [HNode.preValues]; rfl

/- ## Helper lemmas: the range fold -/

theorem rangeFold_split (l : List ℚ) (a b : ℚ) :
    l.foldl (fun r v => (if v < r.1 then v else r.1, if v > r.2 then v else r.2)) (a, b)
      = (l.foldl (fun r v => if v < r then v else r) a,
         l.foldl (fun r v => if v > r then v else r) b) := by
  induction l generalizing a b with
  | nil => rfl
  | cons x xs ih =>
    simp only [List.foldl_cons]
    exact ih _ _

theorem le_maxFold (l : List ℚ) (a : ℚ) :
    a ≤ l.foldl (fun r v => if v > r then v else r) a := by
  induction l generalizing a with
  | nil => simp
  | cons x xs ih =>
    simp only [List.foldl_cons]
    refine le_trans ?_ (ih (if x > a then x else a))
    split
    · exact le_of_lt (by assumption)
    · exact le_refl a

theorem mem_le_maxFold (l : List ℚ) (a : ℚ) :
    ∀ v ∈ l, v ≤ l.foldl (fun r v => if v > r then v else r) a := by
  induction l generalizing a with
  | nil => simp
  | cons x xs ih =>
    intro v hv
    simp only [List.foldl_cons]
    rcases List.mem_cons.mp hv with h | h
    · subst h
      refine le_trans ?_ (le_maxFold xs (if v > a then v else a))
      split
      · exact le_refl v
      · exact le_of_not_lt (by assumption)
    · exact ih _ v h

theorem maxFold_eq_or_mem (l : List ℚ) (a : ℚ) :
    l.foldl (fun r v => if v > r then v else r) a = a ∨
      l.foldl (fun r v => if v > r then v else r) a ∈ l := by
  induction l generalizing a with
  | nil => left; rfl
  | cons x xs ih =>
    simp only [List.foldl_cons]
    rcases ih (if x > a then x else a) with h | h
    · rw [h]
      by_cases hxa : x > a
      · right
        simp [hxa]
      · left
        simp [hxa]
    · right
      exact List.mem_cons_of_mem _ h

theorem rangeMax_eq_maxFold (t : Branch) :
    rangeMax t = (hierarchyValued 0 t).preValues.foldl
      (fun r v => if v > r then v else r) (-MAX_SAFE_INTEGER) := by
  rw [rangeMax, rangeFold, rangeFold_split]

theorem le_rangeMax (t : Branch) :
    ∀ v ∈ (hierarchyValued 0 t).preValues, v ≤ rangeMax t := by
  rw [rangeMax_eq_maxFold]
  exact mem_le_maxFold _ _

theorem rangeMax_mem (t : Branch) (h : 0 < rangeMax t) :
    rangeMax t ∈ (hierarchyValued 0 t).preValues := by
  rcases maxFold_eq_or_mem (hierarchyValued 0 t).preValues (-MAX_SAFE_INTEGER)
    with he | hm
  · rw [rangeMax_eq_maxFold, he] at h
    norm_num [MAX_SAFE_INTEGER] at h
  · rw [rangeMax_eq_maxFold]
    exact hm

theorem num_one_mem_normValues (t : Branch) (h : 0 < rangeMax t) :
    JSVal.num 1 ∈ normValues t := by
  rw [normValues]
  refine List.mem_map.mpr ⟨rangeMax t, rangeMax_mem t h, ?_⟩
  rw [jsDiv, if_neg (ne_of_gt h), div_self (ne_of_gt h)]

/- ## Helper lemmas: value edges -/

mutual
theorem valueEdges_value (p : ℚ) (b : Branch) :
    ∀ e ∈ (hierarchyValued p b).valueEdges,
      (e.2).value = e.1 + jsLengthOr0 (e.2).length := by
  cases b with
  | mk i l cs =>
    rw [hierarchyValued_def, HNode.valueEdges]
    exact valueEdgesUnder_value (p + jsLengthOr0 l) cs
theorem valueEdgesUnder_value (q : ℚ) (bs : BranchList) :
    ∀ e ∈ HList.valueEdgesUnder q (hierarchyValuedKids q bs),
      (e.2).value = e.1 + jsLengthOr0 (e.2).length := by
  cases bs with
  | nil =>
    intro e he
    rw [hierarchyValuedKids, HList.valueEdgesUnder] at he
    exact absurd he (List.not_mem_nil e)
  | cons c cs =>
    intro e he
    rw [hierarchyValuedKids, HList.valueEdgesUnder] at he
    rcases List.mem_cons.mp he with h | h
    · subst h
      rw [hierarchyValued_value, hierarchyValued_length]
    · rcases List.mem_append.mp h with h2 | h2
      · exact valueEdges_value q c e h2
      · exact valueEdgesUnder_value q cs e h2
end

theorem nonnegLengths_head (b : Branch) (h : b.nonnegLengths = true) :
    0 ≤ jsLengthOr0 b.length := by
  cases b with
  | mk i l cs =>
    rw [Branch.nonnegLengths, Bool.and_eq_true] at h
    exact of_decide_eq_true h.1

theorem nonnegLengths_tail (b : Branch) (h : b.nonnegLengths = true) :
    b.children.nonnegLengths = true := by
  cases b with
  | mk i l cs =>
    rw [Branch.nonnegLengths, Bool.and_eq_true] at h
    exact h.2

mutual
theorem edges_nonneg (p : ℚ) (b : Branch) (h : b.nonnegLengths = true) :
    ∀ e ∈ (hierarchyValued p b).valueEdges, 0 ≤ jsLengthOr0 (e.2).length := by
  cases b with
  | mk i l cs =>
    rw [hierarchyValued_def, HNode.valueEdges]
    exact edgesUnder_nonneg (p + jsLengthOr0 l) cs (nonnegLengths_tail _ h)
theorem edgesUnder_nonneg (q : ℚ) (bs : BranchList)
    (h : bs.nonnegLengths = true) :
    ∀ e ∈ HList.valueEdgesUnder q (hierarchyValuedKids q bs),
      0 ≤ jsLengthOr0 (e.2).length := by
  cases bs with
  | nil =>
    intro e he
    rw [hierarchyValuedKids, HList.valueEdgesUnder] at he
    exact absurd he (List.not_mem_nil e)
  | cons c cs =>
    rw [BranchList.nonnegLengths, Bool.and_eq_true] at h
    intro e he
    rw [hierarchyValuedKids, HList.valueEdgesUnder] at he
    rcases List.mem_cons.mp he with h2 | h2
    · subst h2
      rw [hierarchyValued_length]
      exact nonnegLengths_head c h.1
    · rcases List.mem_append.mp h2 with h3 | h3
      · exact edges_nonneg q c h.1 e h3
      · exact edgesUnder_nonneg q cs h.2 e h3
end

/- ## Claim C1 -/

/-- Claim C1 (amended): for every tree accepted by setData whose root
carries no (truthy) distance, whose distances are all non-negative, and in
which some node has positive cumulative distance, after normalization the
root's normalized value is exactly 0, the maximum normalized value over
all nodes is exactly 1, each node's cumulative value is its parent's
cumulative value plus its own distance-to-parent (0 if absent), and along
every parent-child edge (hence every root-to-leaf path) the normalized
value is monotonically non-decreasing. -/
theorem c1_normalization (t : Branch)
    (hroot : jsLengthOr0 t.length = 0)
    (hnn : t.nonnegLengths = true)
    (hpos : 0 < rangeMax t) :
    (normValues t).head? = some (JSVal.num 0) ∧
    JSVal.num 1 ∈ normValues t ∧
    (∀ w ∈ normValues t, ∃ q : ℚ, w = JSVal.num q ∧ q ≤ 1) ∧
    (∀ e ∈ (hierarchyValued 0 t).valueEdges,
      (e.2).value = e.1 + jsLengthOr0 (e.2).length) ∧
    (∀ e ∈ (hierarchyValued 0 t).valueEdges,
      ∃ a b : ℚ, jsDiv e.1 (rangeMax t) = JSVal.num a ∧
        jsDiv (e.2).value (rangeMax t) = JSVal.num b ∧ a ≤ b) := by
  have hM : rangeMax t ≠ 0 := ne_of_gt hpos
  refine ⟨?_, num_one_mem_normValues t hpos, ?_, valueEdges_value 0 t, ?_⟩
  · rw [normValues, List.head?_map, preValues_head, hierarchyValued_value,
      hroot, add_zero]
    rw [Option.map_some', jsDiv, if_neg hM, zero_div]
  · intro w hw
    rcases List.mem_map.mp hw with ⟨v, hv, rfl⟩
    refine ⟨v / rangeMax t, ?_, ?_⟩
    · rw [jsDiv, if_neg hM]
    · rw [div_le_one hpos]
      exact le_rangeMax t v hv
  · intro e he
    refine ⟨e.1 / rangeMax t, (e.2).value / rangeMax t, ?_, ?_, ?_⟩
    · rw [jsDiv, if_neg hM]
    · rw [jsDiv, if_neg hM]
    · have h1 := valueEdges_value 0 t e he
      have h2 := edges_nonneg 0 t hnn e he
      have h3 : e.1 ≤ (e.2).value := by rw [h1]; linarith
      exact div_le_div_of_nonneg_right h3 hpos.le

/-- Witness: `c1_normalization` applied to the concrete two-node tree
`treeRootLeaf`, whose hypotheses hold there. -/
theorem c1_normalization_witness :
    jsLengthOr0 treeRootLeaf.length = 0 ∧
    treeRootLeaf.nonnegLengths = true ∧
    0 < rangeMax treeRootLeaf ∧
    (normValues treeRootLeaf).head? = some (JSVal.num 0) := by
  have h1 : jsLengthOr0 treeRootLeaf.length = 0 := by
    norm_num [treeRootLeaf, Branch.length, jsLengthOr0]
  have h2 : treeRootLeaf.nonnegLengths = true := by
    norm_num [treeRootLeaf, Branch.nonnegLengths, BranchList.nonnegLengths,
      jsLengthOr0]
  have h3 : 0 < rangeMax treeRootLeaf := by
    norm_num [rangeMax, treeRootLeaf, hierarchyValued, hierarchyValuedKids,
      HNode.preValues, HList.preValues, rangeFold, MAX_SAFE_INTEGER,
      jsLengthOr0]
  exact ⟨h1, h2, h3, (c1_normalization treeRootLeaf h1 h2 h3).1⟩

/-- Claim C1 counterexample: on the accepted tree `treeNegRoot`, whose
root itself carries distance -5 and whose only child carries distance 2,
the normalized values are 5/3 at the root and 1 at the leaf: the root's
normalized value is not 0, the maximum over all nodes is 5/3 rather than
1, and the normalized value strictly decreases along the only
root-to-leaf path. -/
theorem c1_counterexample :
    normValues treeNegRoot = [JSVal.num (5/3), JSVal.num 1] ∧
    ((hierarchyValued 0 treeNegRoot).valueEdges.map
      (fun e => (e.1, (e.2).value))) = [((-5 : ℚ), (-3 : ℚ))] ∧
    jsDiv (-5) (rangeMax treeNegRoot) = JSVal.num (5/3) ∧
    jsDiv (-3) (rangeMax treeNegRoot) = JSVal.num 1 ∧
    (5/3 : ℚ) ≠ 0 ∧ (5/3 : ℚ) ≠ 1 ∧ (1 : ℚ) < 5/3 := by
  norm_num [normValues, treeNegRoot, hierarchyValued, hierarchyValuedKids,
    HNode.preValues, HList.preValues, HNode.valueEdges,
    HList.valueEdgesUnder, HNode.value, HNode.length, rangeMax, rangeFold,
    MAX_SAFE_INTEGER, jsLengthOr0, jsDiv]

/- ## Claim C2 -/

theorem filter_key_map {α : Type} (p : String → Bool)
    (new : List (String × α)) :
    (new.filter (fun kv => p kv.1)).map Prod.fst
      = (new.map Prod.fst).filter p := by
  induction new with
  | nil => rfl
  | cons kv tl ih =>
    by_cases h : p kv.1
    · simp [List.filter_cons, h, ih]
    · simp [List.filter_cons, h, ih]

theorem keyedJoin_enter {α : Type} (old : List String)
    (new : List (String × α)) :
    (keyedJoin old new).enter = new.filter (fun kv => !(old.contains kv.1)) :=
  rfl

theorem keyedJoin_update {α : Type} (old : List String)
    (new : List (String × α)) :
    (keyedJoin old new).update = new.filter (fun kv => old.contains kv.1) :=
  rfl

theorem keyedJoin_exit {α : Type} (old : List String)
    (new : List (String × α)) :
    (keyedJoin old new).exit
      = old.filter (fun k => !((new.map Prod.fst).contains k)) :=
  rfl

theorem filter_key_map_not {α : Type} (old : List String)
    (new : List (String × α)) :
    (new.filter (fun kv => !(old.contains kv.1))).map Prod.fst
      = (new.map Prod.fst).filter (fun s => !(old.contains s)) :=
  filter_key_map (fun s => !(old.contains s)) new

theorem filter_key_map_yes {α : Type} (old : List String)
    (new : List (String × α)) :
    (new.filter (fun kv => old.contains kv.1)).map Prod.fst
      = (new.map Prod.fst).filter (fun s => old.contains s) :=
  filter_key_map (fun s => old.contains s) new

/-- Claim C2 (amended): node visuals in the nodes join are keyed by the
node's stable id, so for a second tree differing only by one added leaf
(fresh key `k` inserted into the key sequence) the join classifies exactly
`k` as enter, every other key as update, nothing as exit, and binds each
updated visual to the datum of its own key, never to a different node's.
The links join, by contrast, is paired by index (see the counterexample). -/
theorem c2_identity_keying (t t2 : HNode) (pre post : List String)
    (k : String)
    (hold : t.descendants.map HNode.id = pre ++ post)
    (hnew : t2.descendants.map HNode.id = pre ++ [k] ++ post)
    (hk : k ∉ pre ++ post) :
    ((keyedJoin (t.descendants.map HNode.id)
        (t2.descendants.map (fun n => (n.id, n)))).enter.map Prod.fst
      = [k]) ∧
    ((keyedJoin (t.descendants.map HNode.id)
        (t2.descendants.map (fun n => (n.id, n)))).update.map Prod.fst
      = pre ++ post) ∧
    ((keyedJoin (t.descendants.map HNode.id)
        (t2.descendants.map (fun n => (n.id, n)))).exit = []) ∧
    (∀ kv ∈ (keyedJoin (t.descendants.map HNode.id)
        (t2.descendants.map (fun n => (n.id, n)))).update,
      kv.1 = (kv.2).id) := by
  have hnewkeys : (t2.descendants.map (fun n => (n.id, n))).map Prod.fst
      = pre ++ [k] ++ post := by
    rw [List.map_map]
    exact hnew
  have hpre : ∀ a ∈ pre, (t.descendants.map HNode.id).contains a = true := by
    intro a ha
    exact List.elem_eq_true_of_mem
      (by rw [hold]; exact List.mem_append_left _ ha)
  have hpost : ∀ a ∈ post, (t.descendants.map HNode.id).contains a = true := by
    intro a ha
    exact List.elem_eq_true_of_mem
      (by rw [hold]; exact List.mem_append_right _ ha)
  have hkm : k ∉ t.descendants.map HNode.id := by
    rw [hold]
    exact hk
  have hkc : (t.descendants.map HNode.id).contains k = false :=
    Bool.eq_false_iff.mpr (fun hc => hkm (List.mem_of_elem_eq_true hc))
  refine ⟨?_, ?_, ?_, ?_⟩
  · rw [keyedJoin_enter, filter_key_map_not, hnewkeys, List.filter_append,
      List.filter_append]
    have e1 : pre.filter
        (fun s => !(t.descendants.map HNode.id).contains s) = [] :=
      List.filter_eq_nil_iff.mpr (fun a ha => by rw [hpre a ha]; decide)
    have e2 : post.filter
        (fun s => !(t.descendants.map HNode.id).contains s) = [] :=
      List.filter_eq_nil_iff.mpr (fun a ha => by rw [hpost a ha]; decide)
    have e3 : [k].filter
        (fun s => !(t.descendants.map HNode.id).contains s) = [k] :=
      List.filter_eq_self.mpr (fun a ha => by
        rcases List.mem_singleton.mp ha with rfl
        rw [hkc]
        decide)
    rw [e1, e2, e3]
    simp
  · rw [keyedJoin_update, filter_key_map_yes, hnewkeys, List.filter_append,
      List.filter_append]
    have u1 : pre.filter
        (fun s => (t.descendants.map HNode.id).contains s) = pre :=
      List.filter_eq_self.mpr hpre
    have u2 : post.filter
        (fun s => (t.descendants.map HNode.id).contains s) = post :=
      List.filter_eq_self.mpr hpost
    have u3 : [k].filter
        (fun s => (t.descendants.map HNode.id).contains s) = [] :=
      List.filter_eq_nil_iff.mpr (fun a ha => by
        rcases List.mem_singleton.mp ha with rfl
        rw [hkc]
        decide)
    rw [u1, u2, u3]
    simp
  · rw [keyedJoin_exit]
    refine List.filter_eq_nil_iff.mpr ?_
    intro a ha
    have hmem : a ∈ pre ++ [k] ++ post := by
      rw [hold] at ha
      rcases List.mem_append.mp ha with h | h
      · exact List.mem_append_left _ (List.mem_append_left _ h)
      · exact List.mem_append_right _ h
    have hcont : (pre ++ [k] ++ post).contains a = true :=
      List.elem_eq_true_of_mem hmem
    rw [hnewkeys, hcont]
    decide
  · intro kv hkv
    rw [keyedJoin_update] at hkv
    have : kv ∈ t2.descendants.map (fun n => (n.id, n)) :=
      List.mem_of_mem_filter hkv
    rcases List.mem_map.mp this with ⟨n, _, rfl⟩
    rfl

/-- Witness: `c2_identity_keying` on the concrete trees `hTreeAB` and
`hTreeANB` (one leaf N inserted between A and B). -/
theorem c2_identity_keying_witness :
    (hTreeAB.descendants.map HNode.id = ["r", "A"] ++ ["B"]) ∧
    (hTreeANB.descendants.map HNode.id = ["r", "A"] ++ ["N"] ++ ["B"]) ∧
    ("N" ∉ ["r", "A"] ++ ["B"]) ∧
    ((keyedJoin (hTreeAB.descendants.map HNode.id)
        (hTreeANB.descendants.map (fun n => (n.id, n)))).enter.map Prod.fst
      = ["N"]) := by
  have h1 : hTreeAB.descendants.map HNode.id = ["r", "A"] ++ ["B"] := by
    decide
  have h2 : hTreeANB.descendants.map HNode.id = ["r", "A"] ++ ["N"] ++ ["B"] := by
    decide
  have h3 : "N" ∉ ["r", "A"] ++ ["B"] := by decide
  exact ⟨h1, h2, h3, (c2_identity_keying hTreeAB hTreeANB _ _ _ h1 h2 h3).1⟩

/-- Claim C2 counterexample: the links join (main.js line 307) passes no
key function, so link visuals are paired by index: after inserting the
leaf N between A and B, the visual previously bound to the link of node B
is updated with the link datum of the different node N. -/
theorem c2_counterexample :
    ((indexJoin hTreeAB.links hTreeANB.links).update.map
      (fun pr => ((pr.1.2).id, (pr.2.2).id))) = [("A", "A"), ("B", "N")] ∧
    ("B" : String) ≠ "N" := by
  constructor
  · decide
  · decide

/- ## Claim C3 -/

/-- Claim C3: for every string not in the respective enumerated valid set,
setLayout (likewise setType and setMode) throws and returns the prior
engine state untouched: the stored layout/type/mode fields and the
rendered scene are exactly as before the call. -/
theorem c3_config_rejection (st : TidyTreeState) (s : String) :
    (validLayouts.contains s = false →
      (setLayout st s).1 = st ∧ ((setLayout st s).2).isSome = true) ∧
    (validTypes.contains s = false →
      (setType st s).1 = st ∧ ((setType st s).2).isSome = true) ∧
    (validModes.contains s = false →
      (setMode st s).1 = st ∧ ((setMode st s).2).isSome = true) := by
  refine ⟨fun h => ?_, fun h => ?_, fun h => ?_⟩
  · have h2 : s ∉ validLayouts := by
      intro hm
      have hc : validLayouts.contains s = true := List.elem_eq_true_of_mem hm
      rw [hc] at h
      simp at h
    simp [setLayout, h2]
  · have h2 : s ∉ validTypes := by
      intro hm
      have hc : validTypes.contains s = true := List.elem_eq_true_of_mem hm
      rw [hc] at h
      simp at h
    simp [setType, h2]
  · have h2 : s ∉ validModes := by
      intro hm
      have hc : validModes.contains s = true := List.elem_eq_true_of_mem hm
      rw [hc] at h
      simp at h
    simp [setMode, h2]

/-- Witness: `c3_config_rejection` at the concrete state `sampleState`
and the invalid name `diagonal`. -/
theorem c3_config_rejection_witness :
    (validLayouts.contains "diagonal" = false ∧
      (setLayout sampleState "diagonal").1 = sampleState) ∧
    (validTypes.contains "diagonal" = false ∧
      (setType sampleState "diagonal").1 = sampleState) ∧
    (validModes.contains "diagonal" = false ∧
      (setMode sampleState "diagonal").1 = sampleState) := by
  have hL : validLayouts.contains "diagonal" = false := by decide
  have hT : validTypes.contains "diagonal" = false := by decide
  have hM : validModes.contains "diagonal" = false := by decide
  exact ⟨⟨hL, ((c3_config_rejection sampleState "diagonal").1 hL).1⟩,
    ⟨hT, ((c3_config_rejection sampleState "diagonal").2.1 hT).1⟩,
    ⟨hM, ((c3_config_rejection sampleState "diagonal").2.2 hM).1⟩⟩

/- ## Claim C5 -/

/-- Claim C5 (amended): for every node, the projected weight coordinate is
the pixel budget times the node's normalized cumulative distance, where
the budget is the container width minus margins for horizontal layout,
the height minus margins for vertical, and half the minimum of the two
for circular; provided the root carries no distance and some node has
positive cumulative distance, the root's weight is 0 and any node
attaining the maximum cumulative distance (in particular the most distant
leaf) has weight equal to the full pixel budget. -/
theorem c5_weight_projection (t : Branch) (layout : String) (pw ph : ℚ)
    (m : Margin)
    (hroot : jsLengthOr0 t.length = 0)
    (hpos : 0 < rangeMax t) :
    nodeWeights (scalarOf layout (innerWidth pw m) (innerHeight ph m)) t
      = (normValues t).map
          (jsMulQ (scalarOf layout (innerWidth pw m) (innerHeight ph m))) ∧
    scalarOf "horizontal" (innerWidth pw m) (innerHeight ph m)
      = innerWidth pw m ∧
    scalarOf "vertical" (innerWidth pw m) (innerHeight ph m)
      = innerHeight ph m ∧
    scalarOf "circular" (innerWidth pw m) (innerHeight ph m)
      = min (innerWidth pw m) (innerHeight ph m) / 2 ∧
    (nodeWeights (scalarOf layout (innerWidth pw m) (innerHeight ph m))
        t).head? = some (JSVal.num 0) ∧
    JSVal.num (scalarOf layout (innerWidth pw m) (innerHeight ph m))
      ∈ nodeWeights (scalarOf layout (innerWidth pw m) (innerHeight ph m)) t := by
  have hM : rangeMax t ≠ 0 := ne_of_gt hpos
  have hvh : ("vertical" : String) ≠ "horizontal" := by decide
  have hch : ("circular" : String) ≠ "horizontal" := by decide
  have hcv : ("circular" : String) ≠ "vertical" := by decide
  refine ⟨rfl, by rw [scalarOf, if_pos rfl],
    by rw [scalarOf, if_neg hvh, if_pos rfl],
    by rw [scalarOf, if_neg hch, if_neg hcv], ?_, ?_⟩
  · rw [nodeWeights, List.head?_map, normValues, List.head?_map,
      preValues_head, hierarchyValued_value, hroot, add_zero]
    rw [Option.map_some', Option.map_some', jsDiv, if_neg hM, zero_div,
      jsMulQ, mul_zero]
  · refine List.mem_map.mpr ⟨JSVal.num 1, num_one_mem_normValues t hpos, ?_⟩
    rw [jsMulQ, mul_one]

/-- Witness: `c5_weight_projection` at the tree `treeRootLeaf`, vertical
layout, a 200 by 160 container, and margin 30 on every side. -/
theorem c5_weight_projection_witness :
    jsLengthOr0 treeRootLeaf.length = 0 ∧
    0 < rangeMax treeRootLeaf ∧
    (nodeWeights (scalarOf "vertical" (innerWidth 200 margin30)
        (innerHeight 160 margin30)) treeRootLeaf).head?
      = some (JSVal.num 0) := by
  have h1 : jsLengthOr0 treeRootLeaf.length = 0 := by
    norm_num [treeRootLeaf, Branch.length, jsLengthOr0]
  have h3 : 0 < rangeMax treeRootLeaf := by
    norm_num [rangeMax, treeRootLeaf, hierarchyValued, hierarchyValuedKids,
      HNode.preValues, HList.preValues, rangeFold, MAX_SAFE_INTEGER,
      jsLengthOr0]
  exact ⟨h1, h3,
    (c5_weight_projection treeRootLeaf "vertical" 200 160 margin30 h1 h3).2.2.2.2.1⟩

/-- Claim C5 counterexample: on the single-node tree `treeRootLen5`,
whose root carries distance 5, with vertical layout, a 200 by 160
container and margin 30 on every side (pixel budget 100), the root's
projected weight coordinate is 100, not 0. -/
theorem c5_counterexample :
    scalarOf "vertical" (innerWidth 200 margin30) (innerHeight 160 margin30)
      = 100 ∧
    nodeWeights 100 treeRootLen5 = [JSVal.num 100] ∧
    JSVal.num 100 ≠ JSVal.num 0 := by
  have hvh : ("vertical" : String) ≠ "horizontal" := by decide
  refine ⟨by rw [scalarOf, if_neg hvh, if_pos rfl]
             norm_num [innerHeight, margin30], ?_, by simp⟩
  norm_num [nodeWeights, normValues, treeRootLen5, hierarchyValued,
    hierarchyValuedKids, HNode.preValues, HList.preValues, rangeMax,
    rangeFold, MAX_SAFE_INTEGER, jsLengthOr0, jsDiv, jsMulQ]

/- ## Claim C8 -/

/-- Claim C8: for every link whose target node has no recorded branch
distance (`length` undefined), the link-distance label text is exactly
the string `0.000`, never blank. -/
theorem c8_default_distance_label (toLoc : ℚ → String) (t : HNode)
    (l : HNode × HNode) (_hl : l ∈ t.links) (hundef : (l.2).length = none) :
    linkDistanceText toLoc l = "0.000" ∧ linkDistanceText toLoc l ≠ "" := by
  constructor
  · rw [linkDistanceText, hundef]
  · rw [linkDistanceText, hundef]
    exact (by decide : "0.000" ≠ "")

/-- Witness: `c8_default_distance_label` on the link of `hTreeRootC`,
whose leaf carries no length. -/
theorem c8_default_distance_label_witness :
    ((hTreeRootC, hLeaf "c") ∈ hTreeRootC.links) ∧
    ((hLeaf "c").length = none) ∧
    linkDistanceText (fun _ => "x") (hTreeRootC, hLeaf "c") = "0.000" := by
  have hlinks : hTreeRootC.links = [(hTreeRootC, hLeaf "c")] := by
    simp [HNode.links, levelLinksF, HNode.size, HList.size, hTreeRootC,
      hLeaf, nextLevel, HNode.children, HList.toList]
  have h1 : (hTreeRootC, hLeaf "c") ∈ hTreeRootC.links := by
    rw [hlinks]
    exact List.mem_singleton.mpr rfl
  have h2 : (hLeaf "c").length = none := by decide
  exact ⟨h1, h2,
    (c8_default_distance_label (fun _ => "x") hTreeRootC _ h1 h2).1⟩

/- ## Claim C9 -/

/-- Claim C9: for every tree whose maximum cumulative branch distance is
0, setData raises no error, yet every node's normalized value is
non-finite, the value 0 becoming NaN from the unguarded division 0/0. -/
theorem c9_zero_max_nonfinite (t : Branch) (h : rangeMax t = 0) :
    (∃ s, setData (some t) = Except.ok s) ∧
    (∀ w ∈ normValues t, w.finite = false) ∧
    (∀ v ∈ (hierarchyValued 0 t).preValues, v = 0 →
      jsDiv v (rangeMax t) = JSVal.nan) := by
  refine ⟨⟨_, rfl⟩, ?_, ?_⟩
  · intro w hw
    rcases List.mem_map.mp hw with ⟨v, _, rfl⟩
    rw [h, jsDiv, if_pos rfl]
    split
    · rfl
    · split
      · rfl
      · rfl
  · intro v _ h0
    rw [h, h0, jsDiv, if_pos rfl, if_pos rfl]

/-- Witness: `c9_zero_max_nonfinite` on the two-node tree `treeNoLengths`,
in which no node carries a distance. -/
theorem c9_zero_max_nonfinite_witness :
    rangeMax treeNoLengths = 0 ∧
    (∀ w ∈ normValues treeNoLengths, w.finite = false) := by
  have h : rangeMax treeNoLengths = 0 := by
    norm_num [rangeMax, treeNoLengths, hierarchyValued, hierarchyValuedKids,
      HNode.preValues, HList.preValues, rangeFold, MAX_SAFE_INTEGER,
      jsLengthOr0]
  exact ⟨h, (c9_zero_max_nonfinite treeNoLengths h).2.1⟩

/- ## Claim C10 -/

/-- Claim C10: trigger throws exactly when nothing is stored under the
event name; off stores the handler `() => null` for each removed name, so
a subsequent trigger of that name returns null and does not throw. -/
theorem c10_off_trigger (events : String → Option Handler) (e : String)
    (args : List EvVal) (names : String) (n : String) (args2 : List EvVal)
    (hn : n ∈ jsSplitSpace names) :
    ((∃ m, trigger events e args = .thrown m) ↔ events e = none) ∧
    off events names n = some (fun _ => EvVal.null) ∧
    trigger (off events names) n args2 = .value EvVal.null := by
  have hoff : off events names n = some (fun _ => EvVal.null) := by
    rw [off]
    exact if_pos hn
  refine ⟨?_, hoff, ?_⟩
  · constructor
    · rintro ⟨m, hm⟩
      cases he : events e with
      | none => rfl
      | some f =>
        rw [trigger, he] at hm
        exact absurd hm (by simp)
    · intro hnone
      exact ⟨_, by rw [trigger, hnone]⟩
  · rw [trigger, hoff]

/-- Witness: `c10_off_trigger` with an empty registry, the name list
`showtooltip hidetooltip`, and the event `hidetooltip`. -/
theorem c10_off_trigger_witness :
    ("hidetooltip" ∈ jsSplitSpace "showtooltip hidetooltip") ∧
    trigger (off (fun _ => none) "showtooltip hidetooltip") "hidetooltip" []
      = .value EvVal.null := by
  have hn : "hidetooltip" ∈ jsSplitSpace "showtooltip hidetooltip" := by
    decide
  exact ⟨hn,
    (c10_off_trigger (fun _ => none) "draw" [] "showtooltip hidetooltip"
      "hidetooltip" [] hn).2.2⟩

/- ## String helper lemmas -/

theorem str_data_append (s t : String) : (s ++ t).data = s.data ++ t.data :=
  String.data_append s t

theorem str_append_empty (s : String) : s ++ "" = s := by
  apply String.ext
  rw [str_data_append]
  simp

theorem char_notMem_append {c : Char} {s t : String}
    (hs : c ∉ s.data) (ht : c ∉ t.data) : c ∉ (s ++ t).data := by
  rw [str_data_append]
  intro h
  rcases List.mem_append.mp h with h | h
  · exact hs h
  · exact ht h

/- ## Claim C6 -/

/-- Claim C6: in circular layout a node label's text-anchor is `end` with
offset -5 exactly when the node's angle modulo 2π (the JS remainder, as
the code computes it) exceeds π, and `start` with offset +5 otherwise; in
particular the boundary angle exactly π is anchored `start`; and the
label rotation is (angle in degrees mod 180) - 90. -/
theorem c6_circular_node_labels (x : ℝ) :
    ((circNodeLabelAnchor x = "end" ∧ circNodeLabelOffset x = -5)
      ↔ jsMod x (2 * Real.pi) > Real.pi) ∧
    ((circNodeLabelAnchor x = "start" ∧ circNodeLabelOffset x = 5)
      ↔ ¬(jsMod x (2 * Real.pi) > Real.pi)) ∧
    circNodeLabelAnchor Real.pi = "start" ∧
    circNodeLabelOffset Real.pi = 5 ∧
    circNodeLabelRotation x = jsMod (x * (180 / Real.pi)) 180 - 90 := by
  have hmodpi : jsMod Real.pi (2 * Real.pi) = Real.pi := by
    have h1 : Real.pi / (2 * Real.pi) = 1 / 2 := by
      have := Real.pi_ne_zero
      field_simp
      ring
    rw [jsMod, h1, jsTrunc, if_pos (by norm_num)]
    norm_num
  have hpa : circNodeLabelAnchor Real.pi = "start" := by
    rw [circNodeLabelAnchor, hmodpi, if_neg (lt_irrefl Real.pi)]
  have hpo : circNodeLabelOffset Real.pi = 5 := by
    rw [circNodeLabelOffset, hmodpi, if_neg (lt_irrefl Real.pi)]
  have harg : x / Real.pi * 180 = x * (180 / Real.pi) := by ring
  refine ⟨?_, ?_, hpa, hpo, by rw [circNodeLabelRotation, harg]⟩
  · by_cases hc : jsMod x (2 * Real.pi) > Real.pi
    · exact ⟨fun _ => hc, fun _ =>
        ⟨by rw [circNodeLabelAnchor, if_pos hc],
         by rw [circNodeLabelOffset, if_pos hc]⟩⟩
    · refine ⟨fun hL => ?_, fun hr => absurd hr hc⟩
      rw [circNodeLabelAnchor, if_neg hc] at hL
      exact absurd hL.1 (by decide)
  · by_cases hc : jsMod x (2 * Real.pi) > Real.pi
    · refine ⟨fun hL => ?_, fun hr => absurd hc hr⟩
      rw [circNodeLabelAnchor, if_pos hc] at hL
      exact absurd hL.1 (by decide)
    · exact ⟨fun _ => hc, fun _ =>
        ⟨by rw [circNodeLabelAnchor, if_neg hc],
         by rw [circNodeLabelOffset, if_neg hc]⟩⟩

/- ## Claim C7 -/

/-- Claim C7: `circularPoint` maps angle a and radius r to
(r·cos(a − π/2), r·sin(a − π/2)), and this one mapping gives the node
placement, the link endpoints (straight and square generators and the
modelled smooth endpoints), and the link-label placement of circular
layout. -/
theorem c7_single_polar_mapping :
    (∀ x y : ℝ, circularPoint x y
      = (y * Real.cos (x - Real.pi / 2), y * Real.sin (x - Real.pi / 2))) ∧
    (∀ d : LayoutPt, nodeTransformerTreeCircular d = circularPoint d.x d.y ∧
      nodeTransformerWeightedCircular d = circularPoint d.x d.weight) ∧
    (∀ (fmt : ℝ → String) (d : LinkD), linkStraightCircularTree fmt d
      = "M" ++ fmt (circularPoint d.source.x d.source.y).1 ++ "," ++
        fmt (circularPoint d.source.x d.source.y).2 ++ "L" ++
        fmt (circularPoint d.target.x d.target.y).1 ++ "," ++
        fmt (circularPoint d.target.x d.target.y).2) ∧
    (∀ (fmt : ℝ → String) (d : LinkD), linkStraightCircularWeighted fmt d
      = "M" ++ fmt (circularPoint d.source.x d.source.weight).1 ++ "," ++
        fmt (circularPoint d.source.x d.source.weight).2 ++ "L" ++
        fmt (circularPoint d.target.x d.target.weight).1 ++ "," ++
        fmt (circularPoint d.target.x d.target.weight).2) ∧
    (∀ (fmt : ℝ → String) (d : LinkD), ∃ mid : String,
      linkSquareCircularTree fmt d
      = "M" ++ fmt (circularPoint d.source.x d.source.y).1 ++ "," ++
        fmt (circularPoint d.source.x d.source.y).2 ++ mid ++ "L" ++
        fmt (circularPoint d.target.x d.target.y).1 ++ "," ++
        fmt (circularPoint d.target.x d.target.y).2) ∧
    (∀ (fmt : ℝ → String) (d : LinkD), ∃ mid : String,
      linkSquareCircularWeighted fmt d
      = "M" ++ fmt (circularPoint d.source.x d.source.weight).1 ++ "," ++
        fmt (circularPoint d.source.x d.source.weight).2 ++ mid ++ "L" ++
        fmt (circularPoint d.target.x d.target.weight).1 ++ "," ++
        fmt (circularPoint d.target.x d.target.weight).2) ∧
    (∀ l : LinkD,
      (labelTransformerStraightCircularTree l).translate
        = (((circularPoint l.source.x l.source.y).1
            + (circularPoint l.target.x l.target.y).1) / 2,
           ((circularPoint l.source.x l.source.y).2
            + (circularPoint l.target.x l.target.y).2) / 2) ∧
      (labelTransformerSquareCircularTree l).translate
        = circularPoint l.target.x ((l.source.y + l.target.y) / 2) ∧
      (labelTransformerStraightCircularWeighted l).translate
        = (((circularPoint l.source.x l.source.weight).1
            + (circularPoint l.target.x l.target.weight).1) / 2,
           ((circularPoint l.source.x l.source.weight).2
            + (circularPoint l.target.x l.target.weight).2) / 2) ∧
      (labelTransformerSquareCircularWeighted l).translate
        = circularPoint l.target.x
            ((l.source.weight + l.target.weight) / 2)) ∧
    (∀ d : LinkD, linkSmoothCircularTreeEndpoints d
      = (circularPoint d.source.x d.source.y,
         circularPoint d.target.x d.target.y)) := by
  refine ⟨fun x y => rfl, fun d => ⟨rfl, rfl⟩, fun fmt d => rfl,
    fun fmt d => rfl, fun fmt d => ⟨_, rfl⟩, fun fmt d => ⟨_, rfl⟩,
    fun l => ⟨rfl, rfl, rfl, rfl⟩, fun d => rfl⟩

/- ## Claim C4 -/

/-- Claim C4: a square-mode circular link whose parent and child angles
are equal produces a path string with no arc command, only the move and
the radial line, and the (total) generator cannot throw; with distinct
angles the arc command is present and its sweep flag is 1 exactly when
the child's angle is greater than the parent's.  The abstract number
formatter is only assumed never to emit the letter A. -/
theorem c4_degenerate_arc (fmt : ℝ → String) (d : LinkD)
    (hfmt : ∀ r : ℝ, 'A' ∉ (fmt r).data) :
    (d.target.x = d.source.x →
      'A' ∉ (linkSquareCircularTree fmt d).data ∧
      'A' ∉ (linkSquareCircularWeighted fmt d).data ∧
      linkSquareCircularTree fmt d
        = "M" ++ fmt (d.source.y * Real.cos (d.source.x - Real.pi / 2))
          ++ "," ++ fmt (d.source.y * Real.sin (d.source.x - Real.pi / 2))
          ++ "L" ++ fmt (d.target.y * Real.cos (d.target.x - Real.pi / 2))
          ++ "," ++ fmt (d.target.y * Real.sin (d.target.x - Real.pi / 2)) ∧
      linkSquareCircularWeighted fmt d
        = "M" ++ fmt (d.source.weight * Real.cos (d.source.x - Real.pi / 2))
          ++ "," ++ fmt (d.source.weight * Real.sin (d.source.x - Real.pi / 2))
          ++ "L" ++ fmt (d.target.weight * Real.cos (d.target.x - Real.pi / 2))
          ++ "," ++ fmt (d.target.weight * Real.sin (d.target.x - Real.pi / 2))) ∧
    (d.target.x ≠ d.source.x →
      linkSquareCircularTree fmt d
        = "M" ++ fmt (d.source.y * Real.cos (d.source.x - Real.pi / 2))
          ++ "," ++ fmt (d.source.y * Real.sin (d.source.x - Real.pi / 2))
          ++ ("A" ++ fmt d.source.y ++ "," ++ fmt d.source.y ++ " 0 0 " ++
              (if d.target.x > d.source.x then "1" else "0") ++ " " ++
              fmt (d.source.y * Real.cos (d.target.x - Real.pi / 2)) ++ "," ++
              fmt (d.source.y * Real.sin (d.target.x - Real.pi / 2)))
          ++ "L" ++ fmt (d.target.y * Real.cos (d.target.x - Real.pi / 2))
          ++ "," ++ fmt (d.target.y * Real.sin (d.target.x - Real.pi / 2)) ∧
      linkSquareCircularWeighted fmt d
        = "M" ++ fmt (d.source.weight * Real.cos (d.source.x - Real.pi / 2))
          ++ "," ++ fmt (d.source.weight * Real.sin (d.source.x - Real.pi / 2))
          ++ ("A" ++ fmt d.source.weight ++ "," ++ fmt d.source.weight ++ " 0 0 " ++
              (if d.target.x > d.source.x then "1" else "0") ++ " " ++
              fmt (d.source.weight * Real.cos (d.target.x - Real.pi / 2)) ++ "," ++
              fmt (d.source.weight * Real.sin (d.target.x - Real.pi / 2)))
          ++ "L" ++ fmt (d.target.weight * Real.cos (d.target.x - Real.pi / 2))
          ++ "," ++ fmt (d.target.weight * Real.sin (d.target.x - Real.pi / 2))) := by
  constructor
  · intro h
    have hcond : d.target.x - Real.pi / 2 = d.source.x - Real.pi / 2 := by
      rw [h]
    have heqT : linkSquareCircularTree fmt d
        = "M" ++ fmt (d.source.y * Real.cos (d.source.x - Real.pi / 2))
          ++ "," ++ fmt (d.source.y * Real.sin (d.source.x - Real.pi / 2))
          ++ "L" ++ fmt (d.target.y * Real.cos (d.target.x - Real.pi / 2))
          ++ "," ++ fmt (d.target.y * Real.sin (d.target.x - Real.pi / 2)) := by
      simp only [linkSquareCircularTree]
      rw [if_pos hcond, str_append_empty]
    have heqW : linkSquareCircularWeighted fmt d
        = "M" ++ fmt (d.source.weight * Real.cos (d.source.x - Real.pi / 2))
          ++ "," ++ fmt (d.source.weight * Real.sin (d.source.x - Real.pi / 2))
          ++ "L" ++ fmt (d.target.weight * Real.cos (d.target.x - Real.pi / 2))
          ++ "," ++ fmt (d.target.weight * Real.sin (d.target.x - Real.pi / 2)) := by
      simp only [linkSquareCircularWeighted]
      rw [if_pos hcond, str_append_empty]
    refine ⟨?_, ?_, heqT, heqW⟩
    · rw [heqT]
      exact char_notMem_append (char_notMem_append (char_notMem_append
        (char_notMem_append (char_notMem_append (char_notMem_append
          (char_notMem_append (by decide) (hfmt _)) (by decide)) (hfmt _))
          (by decide)) (hfmt _)) (by decide)) (hfmt _)
    · rw [heqW]
      exact char_notMem_append (char_notMem_append (char_notMem_append
        (char_notMem_append (char_notMem_append (char_notMem_append
          (char_notMem_append (by decide) (hfmt _)) (by decide)) (hfmt _))
          (by decide)) (hfmt _)) (by decide)) (hfmt _)
  · intro h
    have hcond : ¬(d.target.x - Real.pi / 2 = d.source.x - Real.pi / 2) := by
      intro hc
      exact h (by linarith)
    constructor
    · simp only [linkSquareCircularTree]
      rw [if_neg hcond]
      simp only [gt_iff_lt, sub_lt_sub_iff_right]
    · simp only [linkSquareCircularWeighted]
      rw [if_neg hcond]
      simp only [gt_iff_lt, sub_lt_sub_iff_right]

/-- Witness: `c4_degenerate_arc` at a constant formatter and a concrete
link of equal source and target angles. -/
theorem c4_degenerate_arc_witness :
    (∀ r : ℝ, 'A' ∉ ((fun _ => "9") r).data) ∧
    ((1 : ℝ) = 1) ∧
    ('A' ∉ (linkSquareCircularTree (fun _ => "9")
      ⟨⟨1, 2, 3⟩, ⟨1, 4, 5⟩⟩).data) := by
  have hf : ∀ r : ℝ, 'A' ∉ ((fun _ => "9") r).data := fun r => by
    show 'A' ∉ "9".data
    decide
  exact ⟨hf, rfl,
    ((c4_degenerate_arc (fun _ => "9") ⟨⟨1, 2, 3⟩, ⟨1, 4, 5⟩⟩ hf).1 rfl).1⟩
